import Mathlib

/-!
# Verification of the Milvus → TiDB chunk migration engine

Shallow embedding of `src/migrate_milvus_to_tidb.py`: the migration driver
`migrate_range`, its helpers `_milvus_filter`, `_coerce_embedding`,
`_fetch_milvus_page`, `_existing_ids_in_tidb`, and the CLI validation in
`main`.

The two store clients (Milvus, TiDB) are external collaborators.  The Milvus
source is modelled as a fixed snapshot `List Row`; a query with `filter`,
`limit`, `offset` returns the filtered sequence paged by `offset`/`limit`
(spec §4.2: an ordered sequence, exhaustion signalled by an empty page).
The TiDB table handle is modelled as the list of rows the table holds;
`bulk_insert` appends, and the probing `table.query(filters="id IN (...)")`
returns the rows whose id is in the given list.  Interactions with the
destination store are additionally recorded in an effect trace so that
"no query issued" / "no insert performed" properties can be stated.
-/

namespace M2T

/-- A numeric scalar as it arrives from the source store: Python `int` or
`float`.  The embedding-coercion claims are about order/length preservation
and element-wise application of `float(·)`, so the float image is modelled
as a rational. -/
inductive PyNum where
  | int (n : Int)
  | real (q : Rat)
deriving Repr, DecidableEq

/-- Python's `float(x)` on a numeric value. -/
def pyFloat : PyNum → Rat
  | .int n => (n : Rat)
  | .real q => q

/-- The raw `embedding` value of a fetched row, matching the three branches of
`_coerce_embedding` in the source: `None` (also used when the key is absent,
since `r.get("embedding")` then yields `None`), a Python `list`, or some other
iterable that the source materialises with `list(vec)`. -/
inductive EmbVal where
  | pynone
  | pylist (xs : List PyNum)
  | pyiter (xs : List PyNum)
deriving Repr, DecidableEq

/-- A row as fetched from the source store.  Every field of the output-field
list may be absent or `None` in a raw result dict, which the source code
guards with `r.get(...)`; both cases are modelled as `none`. -/
structure Row where
  id : Option Int
  chunk_text : Option String
  doc_id : Option String
  chunk_index : Option Int
  source : Option String
  created_at : Option String
  embedding : EmbVal
deriving Repr, DecidableEq

/-- A record staged for insertion into the destination table (the dict built
at lines 168–178 of the source). -/
structure ChunkRec where
  id : Int
  chunk_text : String
  doc_id : String
  chunk_index : Int
  source : String
  created_at : String
  embedding : List Rat
deriving Repr, DecidableEq

/-- An observable interaction with the destination store. -/
inductive Effect where
  | query (ids : List Int)
  | insert (recs : List ChunkRec)
deriving Repr, DecidableEq

/-- Embedding of `_milvus_filter`.  The source renders the filter string
`"id >= {start}"`, respectively `"id >= {start} && id < {end}"`; we embed the
predicate this string denotes in the store's filter language. -/
def _milvus_filter (start : Int) (end? : Option Int) (i : Int) : Bool :=
  match end? with
  | none => decide (start ≤ i)
  | some e => decide (start ≤ i) && decide (i < e)

/-- Modelled from the spec: how the source store admits a fetched record under
the id-range filter.  The spec treats fetched pages as possibly containing
records that lack a usable id (§4.5 step 3, §8 counter conservation, §9 open
question); such a record is not excluded by the id filter.  A record with an
id is admitted exactly when its id satisfies `_milvus_filter`. -/
def rowAdmitted (start : Int) (end? : Option Int) (r : Row) : Bool :=
  match r.id with
  | some i => _milvus_filter start end? i
  | none => true

/-- Embedding of `_fetch_milvus_page`: one `client.query` call against the
snapshot `src`, returning the `offset`-th slice (of size at most `limit`) of
the filtered result sequence. -/
def _fetch_milvus_page (src : List Row) (start : Int) (end? : Option Int)
    (limit offset : Nat) : List Row :=
  (((src.filter (rowAdmitted start end?)).drop offset).take limit)

/-- Embedding of `_coerce_embedding` (source lines 69–74). -/
def _coerce_embedding : EmbVal → List Rat
  | .pynone => []
  | .pylist xs => xs.map pyFloat
  | .pyiter xs => xs.map pyFloat

/-- The set of primary-key ids present in the destination table. -/
def tableIds (table : List ChunkRec) : Finset Int :=
  (table.map (fun c => c.id)).toFinset

/-- Embedding of `_existing_ids_in_tidb` (source lines 94–99): for an empty
candidate list it returns the empty set without touching the store; otherwise
it issues one `id IN (...)` query and returns the set of ids of the returned
rows.  The second component is the list of store interactions performed. -/
def _existing_ids_in_tidb (table : List ChunkRec) (ids : List Int) :
    Finset Int × List Effect :=
  if ids = [] then (∅, [])
  else
    (((table.filter (fun c => decide (c.id ∈ ids))).map (fun c => c.id)).toFinset,
      [Effect.query ids])

/-- The record built from a fetched row at source lines 168–178, given its
non-null id (`r.get` defaults mirror the source: empty strings and 0). -/
def mkChunk (r : Row) (rid : Int) : ChunkRec :=
  { id := rid
    chunk_text := r.chunk_text.getD ""
    doc_id := r.doc_id.getD ""
    chunk_index := r.chunk_index.getD 0
    source := r.source.getD ""
    created_at := r.created_at.getD ""
    embedding := _coerce_embedding r.embedding }

/-- The per-page row loop (source lines 159–178): rows without an id are
dropped, rows whose id is in `existing` count as skipped, the rest are staged
in order.  Returns (number skipped, staged batch). -/
def stagePage (existing : Finset Int) : List Row → Nat × List ChunkRec
  | [] => (0, [])
  | r :: rest =>
    let acc := stagePage existing rest
    match r.id with
    | none => acc
    | some rid =>
      if rid ∈ existing then (acc.1 + 1, acc.2)
      else (acc.1, mkChunk r rid :: acc.2)

/-- The state threaded through the migration loop: the three counters, the
destination table contents, and the trace of destination-store interactions. -/
structure MigState where
  scanned : Nat
  skipped : Nat
  inserted : Nat
  table : List ChunkRec
  trace : List Effect
deriving Repr, DecidableEq

/-- The `while True` loop of `migrate_range` (source lines 139–188), one
iteration per call: fetch the page at `offset`; stop on an empty page;
otherwise advance the counters, probe the destination for the page's ids,
stage the new rows, and insert them (or merely count them under `dry_run`). -/
def migrate_loop (src : List Row) (start : Int) (end? : Option Int)
    (limit : Nat) (dry_run : Bool) (offset : Nat) (st : MigState) : MigState :=
  let page := _fetch_milvus_page src start end? limit offset
  if hp : page = [] then st
  else
    let pageIds := page.filterMap (fun r => r.id)
    let pr := _existing_ids_in_tidb st.table pageIds
    let stage := stagePage pr.1 page
    let st1 : MigState :=
      { st with
        scanned := st.scanned + page.length
        skipped := st.skipped + stage.1
        trace := st.trace ++ pr.2 }
    let st2 : MigState :=
      if stage.2 = [] then st1
      else if dry_run then { st1 with inserted := st1.inserted + stage.2.length }
      else
        { st1 with
          inserted := st1.inserted + stage.2.length
          table := st1.table ++ stage.2
          trace := st1.trace ++ [Effect.insert stage.2] }
    migrate_loop src start end? limit dry_run (offset + page.length) st2
termination_by (src.filter (rowAdmitted start end?)).length - offset
decreasing_by
  have hne : _fetch_milvus_page src start end? limit offset ≠ [] := hp
  have hlen : 0 < (_fetch_milvus_page src start end? limit offset).length :=
    List.length_pos.mpr hne
  have hoff : offset < (src.filter (rowAdmitted start end?)).length := by
    by_contra hnot
    have hd : (src.filter (rowAdmitted start end?)).drop offset = [] :=
      List.drop_eq_nil_of_le (by omega)
    exact hne (by simp [_fetch_milvus_page, hd])
  show (src.filter (rowAdmitted start end?)).length -
      (offset + (_fetch_milvus_page src start end? limit offset).length) <
      (src.filter (rowAdmitted start end?)).length - offset
  omega

/-- Embedding of `migrate_range` (source lines 102–192).  Connection setup,
collection checks and schema resolution (lines 111–130) are interactions with
the external collaborators; their outcome is the destination table handle,
modelled by the `table` argument.  The counters start at zero and the loop
starts at offset 0. -/
def migrate_range (src : List Row) (start : Int) (end? : Option Int)
    (page_size : Nat) (table : List ChunkRec) (dry_run : Bool) : MigState :=
  migrate_loop src start end? page_size dry_run 0
    { scanned := 0, skipped := 0, inserted := 0, table := table, trace := [] }

/-- Embedding of the CLI entry point `main` (source lines 203–223): the range
validation `--end must be >= --start` runs before `migrate_range` is invoked;
on validation failure the driver never runs. -/
def main (src : List Row) (start : Int) (end? : Option Int) (page_size : Nat)
    (table : List ChunkRec) (dry_run : Bool) : Except String MigState :=
  match end? with
  | some e =>
    if e < start then Except.error "--end must be >= --start"
    else Except.ok (migrate_range src start (some e) page_size table dry_run)
  | none => Except.ok (migrate_range src start none page_size table dry_run)

/-- The body of one `migrate_loop` iteration for a fetched (non-empty) page,
as a function of the pre-page state: counters advance, the destination is
probed for the page's ids, new rows are staged, and the batch is inserted
(or, under `dry_run`, merely counted).  `migrate_loop` performs exactly this
step and recurses — see `loop_step`. -/
def pageStep (src : List Row) (start : Int) (end? : Option Int) (limit : Nat)
    (dry_run : Bool) (offset : Nat) (st : MigState) : MigState :=
  let page := _fetch_milvus_page src start end? limit offset
  let pageIds := page.filterMap (fun r => r.id)
  let pr := _existing_ids_in_tidb st.table pageIds
  let stage := stagePage pr.1 page
  let st1 : MigState :=
    { st with
      scanned := st.scanned + page.length
      skipped := st.skipped + stage.1
      trace := st.trace ++ pr.2 }
  if stage.2 = [] then st1
  else if dry_run then { st1 with inserted := st1.inserted + stage.2.length }
  else
    { st1 with
      inserted := st1.inserted + stage.2.length
      table := st1.table ++ stage.2
      trace := st1.trace ++ [Effect.insert stage.2] }

/-- The probe-and-stage result (skipped count, staged batch) for the page at
`offset`, given the destination table in `st`. -/
def stageOf (src : List Row) (start : Int) (end? : Option Int)
    (limit offset : Nat) (st : MigState) : Nat × List ChunkRec :=
  stagePage
    (_existing_ids_in_tidb st.table
      ((_fetch_milvus_page src start end? limit offset).filterMap
        (fun r => r.id))).1
    (_fetch_milvus_page src start end? limit offset)

/-! ## Sample data used in witnesses and counterexamples -/

/-- A fetched row carrying id 1 and an otherwise empty payload. -/
def rowId1 : Row := ⟨some 1, some "t", some "d", some 0, some "s", some "c", .pynone⟩

/-- A fetched row carrying id 2. -/
def rowId2 : Row := ⟨some 2, none, none, none, none, none, .pynone⟩

/-- A second, distinct fetched row that also carries id 1 (a within-page
duplicate of `rowId1`). -/
def rowId1b : Row := ⟨some 1, some "u", some "e", some 3, some "x", some "y", .pynone⟩

/-- A degenerate fetched row lacking a usable id (spec §4.5 step 3). -/
def rowNoId : Row := ⟨none, some "t", none, none, none, none, .pynone⟩

/-! ## Helper lemmas -/

lemma take_len_drop {α : Type} : ∀ (k : Nat) (L : List α),
    L.take k ++ L.drop (L.take k).length = L
  | 0, _ => by simp
  | _ + 1, [] => by simp
  | k + 1, a :: L => by simpa using take_len_drop k L

lemma fetch_eq (src : List Row) (start : Int) (end? : Option Int)
    (limit offset : Nat) :
    _fetch_milvus_page src start end? limit offset =
      ((src.filter (rowAdmitted start end?)).drop offset).take limit := rfl

/-- The region scanned from `offset` splits into the fetched page and the
region at the advanced offset. -/
lemma drop_split_page (src : List Row) (start : Int) (end? : Option Int)
    (limit offset : Nat) :
    (src.filter (rowAdmitted start end?)).drop offset =
      _fetch_milvus_page src start end? limit offset ++
        (src.filter (rowAdmitted start end?)).drop
          (offset + (_fetch_milvus_page src start end? limit offset).length) := by
  rw [fetch_eq]
  have h2 : (src.filter (rowAdmitted start end?)).drop
      (offset + (((src.filter (rowAdmitted start end?)).drop offset).take limit).length)
      = ((src.filter (rowAdmitted start end?)).drop offset).drop
          ((((src.filter (rowAdmitted start end?)).drop offset).take limit).length) := by
    rw [List.drop_drop, Nat.add_comm]
  rw [h2]
  exact (take_len_drop limit _).symm

lemma probe_fst (table : List ChunkRec) (ids : List Int) :
    (_existing_ids_in_tidb table ids).1 = ids.toFinset ∩ tableIds table := by
  unfold _existing_ids_in_tidb
  split
  · next h => subst h; simp
  · ext x
    simp only [List.mem_toFinset, List.mem_map, List.mem_filter, Finset.mem_inter,
      tableIds, decide_eq_true_eq]
    constructor
    · rintro ⟨c, ⟨hc, hmem⟩, rfl⟩
      exact ⟨hmem, c, hc, rfl⟩
    · rintro ⟨hmem, c, hc, rfl⟩
      exact ⟨c, ⟨hc, hmem⟩, rfl⟩

lemma stagePage_acct (existing : Finset Int) : ∀ (page : List Row),
    (stagePage existing page).1 + (stagePage existing page).2.length +
      page.countP (fun r => (r.id).isNone) = page.length
  | [] => by simp [stagePage]
  | r :: rest => by
    have ih := stagePage_acct existing rest
    cases h : r.id with
    | none => simp only [stagePage, h, List.countP_cons, List.length_cons]
              simp [h]; omega
    | some rid =>
      simp only [stagePage, h, List.countP_cons, List.length_cons]
      split
      · simp [h]; omega
      · simp [h]; omega

lemma stagePage_all_skip (existing : Finset Int) : ∀ (page : List Row),
    (∀ r ∈ page, ∀ rid, r.id = some rid → rid ∈ existing) →
    stagePage existing page = (page.countP (fun r => (r.id).isSome), [])
  | [], _ => by simp [stagePage]
  | r :: rest, h => by
    have ih := stagePage_all_skip existing rest fun r hr => h r (List.mem_cons_of_mem _ hr)
    cases hid : r.id with
    | none => simp [stagePage, hid, ih, List.countP_cons]
    | some rid =>
      have : rid ∈ existing := h r (List.mem_cons_self _ _) rid hid
      simp [stagePage, hid, ih, this, List.countP_cons, Nat.add_comm]

lemma stagePage_mem_batch (existing : Finset Int) : ∀ (page : List Row)
    (r : Row) (rid : Int), r ∈ page → r.id = some rid → rid ∉ existing →
    ∃ c ∈ (stagePage existing page).2, c.id = rid
  | [], _, _, hr, _, _ => absurd hr (List.not_mem_nil _)
  | a :: rest, r, rid, hr, hid, hnot => by
    rcases List.mem_cons.mp hr with rfl | hr'
    · simp only [stagePage, hid, if_neg hnot]
      exact ⟨mkChunk r rid, List.mem_cons_self _ _, rfl⟩
    · obtain ⟨c, hc, hcid⟩ := stagePage_mem_batch existing rest r rid hr' hid hnot
      refine ⟨c, ?_, hcid⟩
      cases ha : a.id with
      | none => simpa [stagePage, ha] using hc
      | some aid =>
        simp only [stagePage, ha]
        split
        · simpa using hc
        · exact List.mem_cons_of_mem _ hc

lemma stagePage_batch_ids_sub (existing : Finset Int) : ∀ (page : List Row)
    (c : ChunkRec), c ∈ (stagePage existing page).2 →
    c.id ∈ page.filterMap (fun r => r.id)
  | [], _, hc => absurd hc (List.not_mem_nil _)
  | a :: rest, c, hc => by
    cases ha : a.id with
    | none =>
      have := stagePage_batch_ids_sub existing rest c (by simpa [stagePage, ha] using hc)
      simp [List.filterMap_cons, ha, this]
    | some aid =>
      simp only [stagePage, ha] at hc
      simp only [List.filterMap_cons, ha]
      split at hc
      · exact List.mem_cons_of_mem _
          (stagePage_batch_ids_sub existing rest c (by simpa using hc))
      · rcases List.mem_cons.mp hc with rfl | hc'
        · exact List.mem_cons_self _ _
        · exact List.mem_cons_of_mem _ (stagePage_batch_ids_sub existing rest c hc')

lemma stagePage_congr (e₁ e₂ : Finset Int) : ∀ (page : List Row),
    (∀ rid ∈ page.filterMap (fun r => r.id), (rid ∈ e₁ ↔ rid ∈ e₂)) →
    stagePage e₁ page = stagePage e₂ page
  | [], _ => rfl
  | a :: rest, h => by
    have ih := stagePage_congr e₁ e₂ rest fun rid hrid =>
      h rid (by cases ha : a.id <;> simp [List.filterMap_cons, ha, hrid])
    cases ha : a.id with
    | none => simp [stagePage, ha, ih]
    | some aid =>
      have hiff := h aid (by simp [List.filterMap_cons, ha])
      by_cases hmem : aid ∈ e₁
      · simp [stagePage, ha, ih, hmem, hiff.mp hmem]
      · have hmem₂ : aid ∉ e₂ := fun hc => hmem (hiff.mpr hc)
        simp [stagePage, ha, ih, hmem, hmem₂]

lemma tableIds_append (a b : List ChunkRec) :
    tableIds (a ++ b) = tableIds a ∪ tableIds b := by
  simp [tableIds]

lemma probe_snd_no_insert (table : List ChunkRec) (ids : List Int)
    (recs : List ChunkRec) :
    Effect.insert recs ∉ (_existing_ids_in_tidb table ids).2 := by
  unfold _existing_ids_in_tidb
  split <;> simp

/-- An empty fetched page means the scanned region is exhausted, provided the
page size is positive. -/
lemma drop_eq_nil_of_page_nil (src : List Row) (start : Int) (end? : Option Int)
    {limit offset : Nat} (hlim : 1 ≤ limit)
    (hpage : _fetch_milvus_page src start end? limit offset = []) :
    (src.filter (rowAdmitted start end?)).drop offset = [] := by
  rw [fetch_eq] at hpage
  rcases List.take_eq_nil_iff.mp hpage with h | h
  · omega
  · exact h

lemma loop_exit {src : List Row} {start : Int} {end? : Option Int}
    {limit : Nat} {dry_run : Bool} {offset : Nat}
    (hpage : _fetch_milvus_page src start end? limit offset = [])
    (st : MigState) :
    migrate_loop src start end? limit dry_run offset st = st := by
  rw [migrate_loop]
  simp only [dif_pos hpage]

lemma loop_step {src : List Row} {start : Int} {end? : Option Int}
    {limit : Nat} {dry_run : Bool} {offset : Nat}
    (hpage : ¬_fetch_milvus_page src start end? limit offset = [])
    (st : MigState) :
    migrate_loop src start end? limit dry_run offset st =
      migrate_loop src start end? limit dry_run
        (offset + (_fetch_milvus_page src start end? limit offset).length)
        (pageStep src start end? limit dry_run offset st) := by
  rw [migrate_loop]
  simp only [dif_neg hpage]
  rfl

lemma pageStep_scanned (src : List Row) (start : Int) (end? : Option Int)
    (limit : Nat) (dry_run : Bool) (offset : Nat) (st : MigState) :
    (pageStep src start end? limit dry_run offset st).scanned
      = st.scanned + (_fetch_milvus_page src start end? limit offset).length := by
  simp only [pageStep]
  split
  · rfl
  · split <;> rfl

lemma pageStep_skipped (src : List Row) (start : Int) (end? : Option Int)
    (limit : Nat) (dry_run : Bool) (offset : Nat) (st : MigState) :
    (pageStep src start end? limit dry_run offset st).skipped
      = st.skipped + (stageOf src start end? limit offset st).1 := by
  simp only [pageStep, stageOf]
  split
  · rfl
  · split <;> rfl

lemma pageStep_inserted (src : List Row) (start : Int) (end? : Option Int)
    (limit : Nat) (dry_run : Bool) (offset : Nat) (st : MigState) :
    (pageStep src start end? limit dry_run offset st).inserted
      = st.inserted + (stageOf src start end? limit offset st).2.length := by
  simp only [pageStep, stageOf]
  split
  · next h => rw [h]; rfl
  · split <;> rfl

lemma pageStep_table_true (src : List Row) (start : Int) (end? : Option Int)
    (limit offset : Nat) (st : MigState) :
    (pageStep src start end? limit true offset st).table = st.table := by
  simp only [pageStep]
  split
  · rfl
  · simp

lemma pageStep_table_false (src : List Row) (start : Int) (end? : Option Int)
    (limit offset : Nat) (st : MigState) :
    (pageStep src start end? limit false offset st).table
      = st.table ++ (stageOf src start end? limit offset st).2 := by
  simp only [pageStep, stageOf]
  split
  · next h => rw [h]; simp
  · simp

lemma pageStep_trace_true (src : List Row) (start : Int) (end? : Option Int)
    (limit offset : Nat) (st : MigState) :
    (pageStep src start end? limit true offset st).trace
      = st.trace ++
        (_existing_ids_in_tidb st.table
          ((_fetch_milvus_page src start end? limit offset).filterMap
            (fun r => r.id))).2 := by
  simp only [pageStep]
  split
  · rfl
  · simp

lemma pageStep_table_sub (src : List Row) (start : Int) (end? : Option Int)
    (limit : Nat) (dry_run : Bool) (offset : Nat) (st : MigState) :
    tableIds st.table ⊆ tableIds (pageStep src start end? limit dry_run offset st).table := by
  cases dry_run
  · rw [pageStep_table_false, tableIds_append]
    exact Finset.subset_union_left
  · rw [pageStep_table_true]

/-- The destination's id set only grows along the migration loop. -/
lemma loop_table_mono (src : List Row) (start : Int) (end? : Option Int)
    (limit : Nat) (dry_run : Bool) :
    ∀ (n offset : Nat) (st : MigState),
      (src.filter (rowAdmitted start end?)).length ≤ offset + n →
      tableIds st.table ⊆
        tableIds (migrate_loop src start end? limit dry_run offset st).table := by
  intro n
  induction n with
  | zero =>
    intro offset st hn
    have hpage : _fetch_milvus_page src start end? limit offset = [] := by
      rw [fetch_eq, List.drop_eq_nil_of_le (by omega)]
      simp
    rw [loop_exit hpage]
  | succ n ihn =>
    intro offset st hn
    by_cases hpage : _fetch_milvus_page src start end? limit offset = []
    · rw [loop_exit hpage]
    · rw [loop_step hpage]
      have hlen : 0 < (_fetch_milvus_page src start end? limit offset).length :=
        List.length_pos.mpr hpage
      exact subset_trans (pageStep_table_sub src start end? limit dry_run offset st)
        (ihn _ _ (by omega))

/-- After a non-dry run, every id occurring in the not-yet-scanned region of
the filtered source is present in the final table: the row was either found
by the probe (so it was already there and the table only grows) or staged and
bulk-inserted. -/
lemma loop_ids_covered (src : List Row) (start : Int) (end? : Option Int)
    (limit : Nat) (hlim : 1 ≤ limit) :
    ∀ (n offset : Nat) (st : MigState),
      (src.filter (rowAdmitted start end?)).length ≤ offset + n →
      ∀ r ∈ (src.filter (rowAdmitted start end?)).drop offset, ∀ rid,
        r.id = some rid →
        rid ∈ tableIds (migrate_loop src start end? limit false offset st).table := by
  intro n
  induction n with
  | zero =>
    intro offset st hn r hr rid hid
    exfalso
    have hnil : (src.filter (rowAdmitted start end?)).drop offset = [] :=
      List.drop_eq_nil_of_le (by omega)
    rw [hnil] at hr
    exact List.not_mem_nil r hr
  | succ n ihn =>
    intro offset st hn r hr rid hid
    by_cases hpage : _fetch_milvus_page src start end? limit offset = []
    · exfalso
      have hnil := drop_eq_nil_of_page_nil src start end? hlim hpage
      rw [hnil] at hr
      exact List.not_mem_nil r hr
    · rw [loop_step hpage]
      have hlen : 0 < (_fetch_milvus_page src start end? limit offset).length :=
        List.length_pos.mpr hpage
      rw [drop_split_page src start end? limit offset] at hr
      rcases List.mem_append.mp hr with hpg | hrest
      · refine Finset.mem_of_subset
          (loop_table_mono src start end? limit false n _ _ (by omega)) ?_
        rw [pageStep_table_false, tableIds_append]
        by_cases hex : rid ∈ (_existing_ids_in_tidb st.table
            ((_fetch_milvus_page src start end? limit offset).filterMap
              (fun r => r.id))).1
        · rw [probe_fst] at hex
          exact Finset.mem_union_left _ (Finset.mem_of_mem_inter_right hex)
        · obtain ⟨c, hc, hcid⟩ := stagePage_mem_batch _ _ r rid hpg hid hex
          refine Finset.mem_union_right _ ?_
          simp only [stageOf, tableIds, List.mem_toFinset, List.mem_map]
          exact ⟨c, hc, hcid⟩
      · exact ihn _ _ (by omega) r hrest rid hid

/-- If every id in the unscanned region is already present in the destination
table, the loop only skips: nothing is inserted, the table is unchanged, and
the counters advance by the region's length and its number of id-bearing
rows. -/
lemma loop_all_existing (src : List Row) (start : Int) (end? : Option Int)
    (limit : Nat) (dry_run : Bool) (hlim : 1 ≤ limit) :
    ∀ (n offset : Nat) (st : MigState),
      (src.filter (rowAdmitted start end?)).length ≤ offset + n →
      (∀ r ∈ (src.filter (rowAdmitted start end?)).drop offset, ∀ rid,
        r.id = some rid → rid ∈ tableIds st.table) →
      (migrate_loop src start end? limit dry_run offset st).inserted = st.inserted
      ∧ (migrate_loop src start end? limit dry_run offset st).table = st.table
      ∧ (migrate_loop src start end? limit dry_run offset st).scanned
          = st.scanned + ((src.filter (rowAdmitted start end?)).drop offset).length
      ∧ (migrate_loop src start end? limit dry_run offset st).skipped
          = st.skipped + ((src.filter (rowAdmitted start end?)).drop offset).countP
              (fun r => (r.id).isSome) := by
  intro n
  induction n with
  | zero =>
    intro offset st hn _hall
    have hnil : (src.filter (rowAdmitted start end?)).drop offset = [] :=
      List.drop_eq_nil_of_le (by omega)
    have hpage : _fetch_milvus_page src start end? limit offset = [] := by
      rw [fetch_eq, hnil]
      simp
    rw [loop_exit hpage, hnil]
    simp
  | succ n ihn =>
    intro offset st hn hall
    by_cases hpage : _fetch_milvus_page src start end? limit offset = []
    · have hnil := drop_eq_nil_of_page_nil src start end? hlim hpage
      rw [loop_exit hpage, hnil]
      simp
    · have hlen : 0 < (_fetch_milvus_page src start end? limit offset).length :=
        List.length_pos.mpr hpage
      have hstage : stageOf src start end? limit offset st
          = ((_fetch_milvus_page src start end? limit offset).countP
              (fun r => (r.id).isSome), []) := by
        rw [stageOf]
        apply stagePage_all_skip
        intro r hr rid hid
        rw [probe_fst, Finset.mem_inter]
        refine ⟨?_, ?_⟩
        · rw [List.mem_toFinset]
          exact List.mem_filterMap.mpr ⟨r, hr, hid⟩
        · refine hall r ?_ rid hid
          rw [drop_split_page src start end? limit offset]
          exact List.mem_append_left _ hr
      have hst1 : (stageOf src start end? limit offset st).1
          = (_fetch_milvus_page src start end? limit offset).countP
              (fun r => (r.id).isSome) := by rw [hstage]
      have hst2 : (stageOf src start end? limit offset st).2 = [] := by rw [hstage]
      have htbl : (pageStep src start end? limit dry_run offset st).table = st.table := by
        cases dry_run
        · rw [pageStep_table_false, hst2]
          simp
        · exact pageStep_table_true src start end? limit offset st
      have hall' : ∀ r ∈ (src.filter (rowAdmitted start end?)).drop
            (offset + (_fetch_milvus_page src start end? limit offset).length),
          ∀ rid, r.id = some rid →
          rid ∈ tableIds (pageStep src start end? limit dry_run offset st).table := by
        intro r hr rid hid
        rw [htbl]
        refine hall r ?_ rid hid
        rw [drop_split_page src start end? limit offset]
        exact List.mem_append_right _ hr
      rw [loop_step hpage]
      obtain ⟨hins, htbl', hsc, hsk⟩ := ihn _ _ (by omega) hall'
      refine ⟨?_, ?_, ?_, ?_⟩
      · rw [hins, pageStep_inserted, hst2]
        simp
      · rw [htbl', htbl]
      · rw [hsc, pageStep_scanned, drop_split_page src start end? limit offset,
          List.length_append]
        omega
      · rw [hsk, pageStep_skipped, hst1, drop_split_page src start end? limit offset,
          List.countP_append]
        omega

/-- Counter conservation along the loop: the skipped and inserted increments
never exceed the scanned increment. -/
lemma loop_acct_le (src : List Row) (start : Int) (end? : Option Int)
    (limit : Nat) (dry_run : Bool) :
    ∀ (n offset : Nat) (st : MigState),
      (src.filter (rowAdmitted start end?)).length ≤ offset + n →
      (migrate_loop src start end? limit dry_run offset st).skipped
          + (migrate_loop src start end? limit dry_run offset st).inserted
          + st.scanned
        ≤ (migrate_loop src start end? limit dry_run offset st).scanned
          + st.skipped + st.inserted := by
  intro n
  induction n with
  | zero =>
    intro offset st hn
    have hpage : _fetch_milvus_page src start end? limit offset = [] := by
      rw [fetch_eq, List.drop_eq_nil_of_le (by omega)]
      simp
    rw [loop_exit hpage]
    omega
  | succ n ihn =>
    intro offset st hn
    by_cases hpage : _fetch_milvus_page src start end? limit offset = []
    · rw [loop_exit hpage]
      omega
    · have hlen : 0 < (_fetch_milvus_page src start end? limit offset).length :=
        List.length_pos.mpr hpage
      rw [loop_step hpage]
      have ih := ihn (offset + (_fetch_milvus_page src start end? limit offset).length)
        (pageStep src start end? limit dry_run offset st) (by omega)
      have hacct : (stageOf src start end? limit offset st).1
            + (stageOf src start end? limit offset st).2.length
            + (_fetch_milvus_page src start end? limit offset).countP
                (fun r => (r.id).isNone)
          = (_fetch_milvus_page src start end? limit offset).length :=
        stagePage_acct _ _
      have hsc := pageStep_scanned src start end? limit dry_run offset st
      have hsk := pageStep_skipped src start end? limit dry_run offset st
      have hins := pageStep_inserted src start end? limit dry_run offset st
      omega

/-- Exact counter accounting when every row in the unscanned region carries a
usable id: the scanned increment equals the skipped plus inserted
increments. -/
lemma loop_acct_eq (src : List Row) (start : Int) (end? : Option Int)
    (limit : Nat) (dry_run : Bool) :
    ∀ (n offset : Nat) (st : MigState),
      (src.filter (rowAdmitted start end?)).length ≤ offset + n →
      (∀ r ∈ (src.filter (rowAdmitted start end?)).drop offset, (r.id).isSome) →
      (migrate_loop src start end? limit dry_run offset st).scanned
          + st.skipped + st.inserted
        = st.scanned
          + (migrate_loop src start end? limit dry_run offset st).skipped
          + (migrate_loop src start end? limit dry_run offset st).inserted := by
  intro n
  induction n with
  | zero =>
    intro offset st hn _hall
    have hpage : _fetch_milvus_page src start end? limit offset = [] := by
      rw [fetch_eq, List.drop_eq_nil_of_le (by omega)]
      simp
    rw [loop_exit hpage]
  | succ n ihn =>
    intro offset st hn hall
    by_cases hpage : _fetch_milvus_page src start end? limit offset = []
    · rw [loop_exit hpage]
    · have hlen : 0 < (_fetch_milvus_page src start end? limit offset).length :=
        List.length_pos.mpr hpage
      rw [loop_step hpage]
      have hall' : ∀ r ∈ (src.filter (rowAdmitted start end?)).drop
            (offset + (_fetch_milvus_page src start end? limit offset).length),
          (r.id).isSome := by
        intro r hr
        refine hall r ?_
        rw [drop_split_page src start end? limit offset]
        exact List.mem_append_right _ hr
      have ih := ihn (offset + (_fetch_milvus_page src start end? limit offset).length)
        (pageStep src start end? limit dry_run offset st) (by omega) hall'
      have hnone : (_fetch_milvus_page src start end? limit offset).countP
          (fun r => (r.id).isNone) = 0 := by
        rw [List.countP_eq_zero]
        intro r hr
        have hsome : (r.id).isSome := by
          refine hall r ?_
          rw [drop_split_page src start end? limit offset]
          exact List.mem_append_left _ hr
        simp [Option.isNone_eq_false_iff, ← Option.isSome_iff_ne_none, hsome]
      have hacct : (stageOf src start end? limit offset st).1
            + (stageOf src start end? limit offset st).2.length
            + (_fetch_milvus_page src start end? limit offset).countP
                (fun r => (r.id).isNone)
          = (_fetch_milvus_page src start end? limit offset).length :=
        stagePage_acct _ _
      have hsc := pageStep_scanned src start end? limit dry_run offset st
      have hsk := pageStep_skipped src start end? limit dry_run offset st
      have hins := pageStep_inserted src start end? limit dry_run offset st
      omega

/-- A dry run never changes the destination table. -/
lemma loop_dry_table (src : List Row) (start : Int) (end? : Option Int)
    (limit : Nat) :
    ∀ (n offset : Nat) (st : MigState),
      (src.filter (rowAdmitted start end?)).length ≤ offset + n →
      (migrate_loop src start end? limit true offset st).table = st.table := by
  intro n
  induction n with
  | zero =>
    intro offset st hn
    have hpage : _fetch_milvus_page src start end? limit offset = [] := by
      rw [fetch_eq, List.drop_eq_nil_of_le (by omega)]
      simp
    rw [loop_exit hpage]
  | succ n ihn =>
    intro offset st hn
    by_cases hpage : _fetch_milvus_page src start end? limit offset = []
    · rw [loop_exit hpage]
    · have hlen : 0 < (_fetch_milvus_page src start end? limit offset).length :=
        List.length_pos.mpr hpage
      rw [loop_step hpage, ihn _ _ (by omega), pageStep_table_true]

/-- A dry run never emits a bulk-insert effect. -/
lemma loop_dry_trace (src : List Row) (start : Int) (end? : Option Int)
    (limit : Nat) :
    ∀ (n offset : Nat) (st : MigState),
      (src.filter (rowAdmitted start end?)).length ≤ offset + n →
      (∀ recs, Effect.insert recs ∉ st.trace) →
      ∀ recs, Effect.insert recs ∉
        (migrate_loop src start end? limit true offset st).trace := by
  intro n
  induction n with
  | zero =>
    intro offset st hn hst
    have hpage : _fetch_milvus_page src start end? limit offset = [] := by
      rw [fetch_eq, List.drop_eq_nil_of_le (by omega)]
      simp
    rw [loop_exit hpage]
    exact hst
  | succ n ihn =>
    intro offset st hn hst
    by_cases hpage : _fetch_milvus_page src start end? limit offset = []
    · rw [loop_exit hpage]
      exact hst
    · have hlen : 0 < (_fetch_milvus_page src start end? limit offset).length :=
        List.length_pos.mpr hpage
      rw [loop_step hpage]
      refine ihn _ _ (by omega) ?_
      intro recs hmem
      rw [pageStep_trace_true] at hmem
      rcases List.mem_append.mp hmem with h | h
      · exact hst recs h
      · exact probe_snd_no_insert _ _ _ h

/-- A real run and a dry run over the same remaining region produce the same
counters, provided the ids of the region are pairwise distinct and the two
table states agree on membership of every id of the region.  (Distinctness is
the data model's invariant — spec §3, "id: … globally unique"; without it a
real run's earlier inserts could change a later page's probe result.) -/
lemma loop_dry_real (src : List Row) (start : Int) (end? : Option Int)
    (limit : Nat) :
    ∀ (n offset : Nat) (stR stD : MigState),
      (src.filter (rowAdmitted start end?)).length ≤ offset + n →
      stR.scanned = stD.scanned → stR.skipped = stD.skipped →
      stR.inserted = stD.inserted →
      (((src.filter (rowAdmitted start end?)).drop offset).filterMap
        (fun r => r.id)).Nodup →
      (∀ rid ∈ ((src.filter (rowAdmitted start end?)).drop offset).filterMap
          (fun r => r.id),
        (rid ∈ tableIds stR.table ↔ rid ∈ tableIds stD.table)) →
      (migrate_loop src start end? limit false offset stR).scanned
          = (migrate_loop src start end? limit true offset stD).scanned
      ∧ (migrate_loop src start end? limit false offset stR).skipped
          = (migrate_loop src start end? limit true offset stD).skipped
      ∧ (migrate_loop src start end? limit false offset stR).inserted
          = (migrate_loop src start end? limit true offset stD).inserted := by
  intro n
  induction n with
  | zero =>
    intro offset stR stD hn h1 h2 h3 _hnd _hiff
    have hpage : _fetch_milvus_page src start end? limit offset = [] := by
      rw [fetch_eq, List.drop_eq_nil_of_le (by omega)]
      simp
    rw [loop_exit hpage, loop_exit hpage]
    exact ⟨h1, h2, h3⟩
  | succ n ihn =>
    intro offset stR stD hn h1 h2 h3 hnd hiff
    by_cases hpage : _fetch_milvus_page src start end? limit offset = []
    · rw [loop_exit hpage, loop_exit hpage]
      exact ⟨h1, h2, h3⟩
    · have hlen : 0 < (_fetch_milvus_page src start end? limit offset).length :=
        List.length_pos.mpr hpage
      have hsplitIds : ((src.filter (rowAdmitted start end?)).drop offset).filterMap
            (fun r => r.id)
          = (_fetch_milvus_page src start end? limit offset).filterMap (fun r => r.id)
            ++ ((src.filter (rowAdmitted start end?)).drop
                (offset + (_fetch_milvus_page src start end? limit offset).length)).filterMap
                (fun r => r.id) := by
        rw [drop_split_page src start end? limit offset, List.filterMap_append]
      rw [hsplitIds] at hnd hiff
      obtain ⟨_hnd1, hnd2, hdisj⟩ := List.nodup_append.mp hnd
      -- the probe decisions agree, hence staging agrees
      have hstage : stageOf src start end? limit offset stR
          = stageOf src start end? limit offset stD := by
        rw [stageOf, stageOf]
        apply stagePage_congr
        intro rid hrid
        rw [probe_fst, probe_fst, Finset.mem_inter, Finset.mem_inter]
        have hmem := hiff rid (List.mem_append_left _ hrid)
        constructor
        · rintro ⟨ha, hb⟩
          exact ⟨ha, hmem.mp hb⟩
        · rintro ⟨ha, hb⟩
          exact ⟨ha, hmem.mpr hb⟩
      rw [loop_step hpage stR, loop_step hpage stD]
      refine ihn _ _ _ (by omega) ?_ ?_ ?_ hnd2 ?_
      · rw [pageStep_scanned, pageStep_scanned, h1]
      · rw [pageStep_skipped, pageStep_skipped, h2, hstage]
      · rw [pageStep_inserted, pageStep_inserted, h3, hstage]
      · intro rid hrid
        rw [pageStep_table_false, pageStep_table_true, tableIds_append]
        have hold := hiff rid (List.mem_append_right _ hrid)
        constructor
        · intro h
          rcases Finset.mem_union.mp h with h | h
          · exact hold.mp h
          · exfalso
            simp only [tableIds, List.mem_toFinset, List.mem_map] at h
            obtain ⟨c, hc, hcid⟩ := h
            have hpg : c.id ∈ (_fetch_milvus_page src start end? limit offset).filterMap
                (fun r => r.id) := by
              have := stagePage_batch_ids_sub
                (_existing_ids_in_tidb stR.table
                  ((_fetch_milvus_page src start end? limit offset).filterMap
                    (fun r => r.id))).1
                (_fetch_milvus_page src start end? limit offset) c
              exact this (by simpa [stageOf] using hc)
            rw [hcid] at hpg
            exact hdisj hpg hrid
        · intro h
          exact Finset.mem_union_left _ (hold.mpr h)

/-! ## Claim C5 — range boundary of the fetch filter -/

/-- C5 (counterexample): the claim asserts that a row with `id = start` is
always eligible for fetch, for every provided `end`; with `start = end = 0`
(a range the CLI validation admits) the filter rejects `id = 0 = start`. -/
theorem filter_start_eq_end_cex : _milvus_filter 0 (some 0) 0 = false := by decide

/-- C5 (amended): the fetch filter admits exactly the rows with
`id ≥ start` and `id < end` (just `id ≥ start` when `end` is absent); a row
with `id = end` is never fetched, and a row with `id = start` is eligible
whenever `end` is absent or `start < end` (for the empty range
`end = start`, nothing — including `id = start` — is admitted). -/
theorem filter_range_boundary :
    (∀ start i : Int, _milvus_filter start none i = true ↔ start ≤ i)
    ∧ (∀ start e i : Int,
        _milvus_filter start (some e) i = true ↔ (start ≤ i ∧ i < e))
    ∧ (∀ start e : Int, _milvus_filter start (some e) e = false)
    ∧ (∀ start : Int, _milvus_filter start none start = true)
    ∧ (∀ start e : Int, start < e → _milvus_filter start (some e) start = true) := by
  refine ⟨fun start i => ?_, fun start e i => ?_, fun start e => ?_,
    fun start => ?_, fun start e h => ?_⟩ <;>
    simp [_milvus_filter] <;> omega

/-- C5 witness: the amended boundary facts at `start = 0`, `end = 5`. -/
theorem filter_range_boundary_witness :
    _milvus_filter 0 (some 5) 0 = true :=
  filter_range_boundary.2.2.2.2 0 5 (by decide)

/-! ## Claim C7 — existence prober on empty input -/

/-- C7: for an empty candidate id list, `_existing_ids_in_tidb` returns the
empty set and issues no query to the destination store. -/
theorem probe_empty_input (table : List ChunkRec) :
    _existing_ids_in_tidb table [] = (∅, []) := rfl

/-! ## Claim C8 — embedding coercion -/

/-- C8: `_coerce_embedding` maps `None` (or an absent value) to the empty
sequence, and any list-like input of numeric elements to its element-wise
`float(·)` image, preserving order and length; a non-list iterable is
materialised and treated like a list. -/
theorem coerce_embedding_spec :
    _coerce_embedding EmbVal.pynone = []
    ∧ (∀ xs, (_coerce_embedding (EmbVal.pylist xs)).length = xs.length)
    ∧ (∀ (xs : List PyNum) (i : Nat),
        (_coerce_embedding (EmbVal.pylist xs))[i]? = (xs[i]?).map pyFloat)
    ∧ (∀ xs, _coerce_embedding (EmbVal.pyiter xs)
        = _coerce_embedding (EmbVal.pylist xs)) := by
  refine ⟨rfl, fun xs => ?_, fun xs i => ?_, fun xs => rfl⟩
  · simp [_coerce_embedding]
  · simp [_coerce_embedding]

/-! ## Claim C9 — CLI range validation -/

/-- C9: when `end` is provided and `end < start`, `main` fails with the
validation error before `migrate_range` is invoked, so no fetch, probe, or
insert is attempted. -/
theorem cli_range_validation (src : List Row) (start e : Int)
    (page_size : Nat) (table : List ChunkRec) (dry_run : Bool)
    (h : e < start) :
    main src start (some e) page_size table dry_run
      = Except.error "--end must be >= --start" := by
  simp [main, h]

/-- C9 witness: `--start 5 --end 3` is rejected. -/
theorem cli_range_validation_witness :
    main [] 5 (some 3) 1 [] false = Except.error "--end must be >= --start" :=
  cli_range_validation [] 5 3 1 [] false (by decide)

/-! ## Claim C1 — idempotence of migration -/

/-- C1 (counterexample): with a source whose only fetched row lacks a usable
id, the second non-dry run has `skipped = 0` but `scanned = 1`, so the
claimed `skipped = scanned` fails (its `inserted = 0` part does hold). -/
theorem second_run_skipped_ne_scanned_cex :
    ¬ ((migrate_range [rowNoId] 0 none 1
          (migrate_range [rowNoId] 0 none 1 [] false).table false).skipped
        = (migrate_range [rowNoId] 0 none 1
          (migrate_range [rowNoId] 0 none 1 [] false).table false).scanned) := by
  simp [migrate_range, migrate_loop, _fetch_milvus_page, rowAdmitted, rowNoId,
    _milvus_filter, _existing_ids_in_tidb, stagePage]

/-- C1 (amended): for a fixed source snapshot, range, and positive page size,
running `migrate_range` twice with `dry_run = false` yields on the second run
`inserted = 0`, `scanned` equal to the filtered source's length, and
`skipped` equal to its count of id-bearing rows — so `skipped = scanned`
whenever every fetched row carries a usable id (rows lacking an id are
scanned but never skipped). -/
theorem second_run_inserted_zero (src : List Row) (start : Int)
    (end? : Option Int) (page_size : Nat) (table0 : List ChunkRec)
    (hlim : 1 ≤ page_size) :
    (migrate_range src start end? page_size
        (migrate_range src start end? page_size table0 false).table false).inserted
      = 0
    ∧ (migrate_range src start end? page_size
        (migrate_range src start end? page_size table0 false).table false).scanned
      = (src.filter (rowAdmitted start end?)).length
    ∧ (migrate_range src start end? page_size
        (migrate_range src start end? page_size table0 false).table false).skipped
      = (src.filter (rowAdmitted start end?)).countP (fun r => (r.id).isSome)
    ∧ ((∀ r ∈ src.filter (rowAdmitted start end?), (r.id).isSome) →
        (migrate_range src start end? page_size
          (migrate_range src start end? page_size table0 false).table false).skipped
        = (migrate_range src start end? page_size
          (migrate_range src start end? page_size table0 false).table false).scanned) := by
  have hall : ∀ r ∈ (src.filter (rowAdmitted start end?)).drop 0, ∀ rid,
      r.id = some rid →
      rid ∈ tableIds
        ((⟨0, 0, 0, (migrate_range src start end? page_size table0 false).table, []⟩ :
          MigState).table) := by
    intro r hr rid hid
    exact loop_ids_covered src start end? page_size hlim
      ((src.filter (rowAdmitted start end?)).length) 0
      ⟨0, 0, 0, table0, []⟩ (by omega) r hr rid hid
  obtain ⟨hins, _htbl, hsc, hsk⟩ :=
    loop_all_existing src start end? page_size false hlim
      ((src.filter (rowAdmitted start end?)).length) 0
      ⟨0, 0, 0, (migrate_range src start end? page_size table0 false).table, []⟩
      (by omega) hall
  refine ⟨hins, by simpa [migrate_range] using hsc,
    by simpa [migrate_range] using hsk, ?_⟩
  intro hids
  have hall' : (src.filter (rowAdmitted start end?)).countP (fun r => (r.id).isSome)
      = (src.filter (rowAdmitted start end?)).length :=
    List.countP_eq_length.mpr (fun r hr => by simpa using hids r hr)
  rw [show (migrate_range src start end? page_size
      (migrate_range src start end? page_size table0 false).table false).skipped
      = (src.filter (rowAdmitted start end?)).countP (fun r => (r.id).isSome)
    from by simpa [migrate_range] using hsk]
  rw [show (migrate_range src start end? page_size
      (migrate_range src start end? page_size table0 false).table false).scanned
      = (src.filter (rowAdmitted start end?)).length
    from by simpa [migrate_range] using hsc]
  exact hall'

/-- C1 witness: on a one-row source with a usable id, the second run inserts
nothing and skips its whole scan. -/
theorem second_run_inserted_zero_witness :
    (1 ≤ 2)
    ∧ (migrate_range [rowId1] 0 none 2
        (migrate_range [rowId1] 0 none 2 [] false).table false).inserted = 0
    ∧ (migrate_range [rowId1] 0 none 2
        (migrate_range [rowId1] 0 none 2 [] false).table false).skipped
      = (migrate_range [rowId1] 0 none 2
        (migrate_range [rowId1] 0 none 2 [] false).table false).scanned :=
  ⟨by omega, (second_run_inserted_zero [rowId1] 0 none 2 [] (by omega)).1,
    (second_run_inserted_zero [rowId1] 0 none 2 [] (by omega)).2.2.2 (by decide)⟩

/-! ## Claim C2 — counter balance at completion -/

/-- C2 (counterexample): a fetched row lacking a usable id is counted in
`scanned` but in neither `skipped` nor `inserted`, so
`scanned = skipped + inserted` fails at completion. -/
theorem counters_balance_cex :
    ¬ ((migrate_range [rowNoId] 0 none 2 [] false).scanned
        = (migrate_range [rowNoId] 0 none 2 [] false).skipped
          + (migrate_range [rowNoId] 0 none 2 [] false).inserted) := by
  simp [migrate_range, migrate_loop, _fetch_milvus_page, rowAdmitted, rowNoId,
    _milvus_filter, _existing_ids_in_tidb, stagePage]

/-- C2 (amended): for every completed run of `migrate_range` (dry-run
included), `scanned = skipped_existing + inserted` holds at completion
provided every fetched row carries a usable (non-null) id. -/
theorem counters_balance_of_usable_ids (src : List Row) (start : Int)
    (end? : Option Int) (page_size : Nat) (table : List ChunkRec)
    (dry_run : Bool)
    (h : ∀ r ∈ src.filter (rowAdmitted start end?), (r.id).isSome) :
    (migrate_range src start end? page_size table dry_run).scanned
      = (migrate_range src start end? page_size table dry_run).skipped
        + (migrate_range src start end? page_size table dry_run).inserted := by
  have := loop_acct_eq src start end? page_size dry_run
    ((src.filter (rowAdmitted start end?)).length) 0
    ⟨0, 0, 0, table, []⟩ (by omega) (by simpa using h)
  simpa [migrate_range] using this

/-- C2 witness: the balance on a two-row source with usable ids, dry-run
mode. -/
theorem counters_balance_witness :
    (migrate_range [rowId1, rowId2] 0 none 1 [] true).scanned
      = (migrate_range [rowId1, rowId2] 0 none 1 [] true).skipped
        + (migrate_range [rowId1, rowId2] 0 none 1 [] true).inserted :=
  counters_balance_of_usable_ids [rowId1, rowId2] 0 none 1 [] true (by decide)

/-! ## Claim C3 — counter conservation -/

/-- C3: for every run of `migrate_range`,
`scanned ≥ skipped + inserted`; equality holds whenever every fetched row
carries a usable id, and strict inequality implies some fetched row has a
missing id. -/
theorem counter_conservation (src : List Row) (start : Int)
    (end? : Option Int) (page_size : Nat) (table : List ChunkRec)
    (dry_run : Bool) :
    (migrate_range src start end? page_size table dry_run).skipped
        + (migrate_range src start end? page_size table dry_run).inserted
      ≤ (migrate_range src start end? page_size table dry_run).scanned
    ∧ ((∀ r ∈ src.filter (rowAdmitted start end?), (r.id).isSome) →
        (migrate_range src start end? page_size table dry_run).scanned
          = (migrate_range src start end? page_size table dry_run).skipped
            + (migrate_range src start end? page_size table dry_run).inserted)
    ∧ ((migrate_range src start end? page_size table dry_run).skipped
          + (migrate_range src start end? page_size table dry_run).inserted
        < (migrate_range src start end? page_size table dry_run).scanned →
        ∃ r ∈ src.filter (rowAdmitted start end?), r.id = none) := by
  have hle := loop_acct_le src start end? page_size dry_run
    ((src.filter (rowAdmitted start end?)).length) 0
    ⟨0, 0, 0, table, []⟩ (by omega)
  refine ⟨by simpa [migrate_range] using hle, ?_, ?_⟩
  · intro h
    have := loop_acct_eq src start end? page_size dry_run
      ((src.filter (rowAdmitted start end?)).length) 0
      ⟨0, 0, 0, table, []⟩ (by omega) (by simpa using h)
    simpa [migrate_range] using this
  · intro hlt
    by_contra hno
    push_neg at hno
    have hids : ∀ r ∈ src.filter (rowAdmitted start end?), (r.id).isSome := by
      intro r hr
      rcases hid : r.id with _ | v
      · exact absurd hid (hno r hr)
      · rfl
    have := loop_acct_eq src start end? page_size dry_run
      ((src.filter (rowAdmitted start end?)).length) 0
      ⟨0, 0, 0, table, []⟩ (by omega) (by simpa using hids)
    have heq : (migrate_range src start end? page_size table dry_run).scanned
        = (migrate_range src start end? page_size table dry_run).skipped
          + (migrate_range src start end? page_size table dry_run).inserted := by
      simpa [migrate_range] using this
    omega

/-- C3 witness: conservation facts at a concrete run, including the equality
under the usable-id hypothesis. -/
theorem counter_conservation_witness :
    (∀ r ∈ [rowId1].filter (rowAdmitted 0 none), (r.id).isSome)
    ∧ (migrate_range [rowId1] 0 none 2 [] false).skipped
        + (migrate_range [rowId1] 0 none 2 [] false).inserted
      ≤ (migrate_range [rowId1] 0 none 2 [] false).scanned
    ∧ (migrate_range [rowId1] 0 none 2 [] false).scanned
      = (migrate_range [rowId1] 0 none 2 [] false).skipped
        + (migrate_range [rowId1] 0 none 2 [] false).inserted :=
  ⟨by decide, (counter_conservation [rowId1] 0 none 2 [] false).1,
    (counter_conservation [rowId1] 0 none 2 [] false).2.1 (by decide)⟩

/-! ## Claim C4 — dry-run non-mutation -/

/-- C4: a run with `dry_run = true` performs no bulk insert — the destination
table (hence its row count) is unchanged and no insert effect is emitted —
and returns counters identical to a non-dry-run pass started on the same
untouched destination.  The counter identity is stated under the data
model's invariant that source ids are globally unique (spec §3); a real
run's earlier inserts then cannot change a later page's probe result. -/
theorem dry_run_non_mutation (src : List Row) (start : Int)
    (end? : Option Int) (page_size : Nat) (table0 : List ChunkRec)
    (hnd : ((src.filter (rowAdmitted start end?)).filterMap
      (fun r => r.id)).Nodup) :
    (migrate_range src start end? page_size table0 true).table = table0
    ∧ (migrate_range src start end? page_size table0 true).table.length
        = table0.length
    ∧ (∀ recs, Effect.insert recs ∉
        (migrate_range src start end? page_size table0 true).trace)
    ∧ (migrate_range src start end? page_size table0 true).scanned
        = (migrate_range src start end? page_size table0 false).scanned
    ∧ (migrate_range src start end? page_size table0 true).skipped
        = (migrate_range src start end? page_size table0 false).skipped
    ∧ (migrate_range src start end? page_size table0 true).inserted
        = (migrate_range src start end? page_size table0 false).inserted := by
  have htbl := loop_dry_table src start end? page_size
    ((src.filter (rowAdmitted start end?)).length) 0
    ⟨0, 0, 0, table0, []⟩ (by omega)
  have htr := loop_dry_trace src start end? page_size
    ((src.filter (rowAdmitted start end?)).length) 0
    ⟨0, 0, 0, table0, []⟩ (by omega) (by simp)
  obtain ⟨hs, hk, hi⟩ := loop_dry_real src start end? page_size
    ((src.filter (rowAdmitted start end?)).length) 0
    ⟨0, 0, 0, table0, []⟩ ⟨0, 0, 0, table0, []⟩ (by omega) rfl rfl rfl
    (by simpa using hnd) (fun rid _ => Iff.rfl)
  have htbl' : (migrate_range src start end? page_size table0 true).table
      = table0 := htbl
  refine ⟨htbl', by rw [htbl'], htr, hs.symm, hk.symm, hi.symm⟩

/-- C4 witness: on a two-row unique-id source paged one row at a time, the
dry run leaves the destination empty and agrees with the real run's
counters. -/
theorem dry_run_non_mutation_witness :
    (migrate_range [rowId1, rowId2] 0 none 1 [] true).table = []
    ∧ (migrate_range [rowId1, rowId2] 0 none 1 [] true).inserted
        = (migrate_range [rowId1, rowId2] 0 none 1 [] false).inserted :=
  ⟨(dry_run_non_mutation [rowId1, rowId2] 0 none 1 [] (by decide)).1,
    (dry_run_non_mutation [rowId1, rowId2] 0 none 1 [] (by decide)).2.2.2.2.2⟩

/-! ## Claim C6 — empty source range -/

/-- C6: if the first fetch returns an empty page, `migrate_range` returns the
counters `(0, 0, 0)`, leaves the destination table untouched, and performs no
existence probe and no insert (its destination-effect trace is empty). -/
theorem empty_first_page (src : List Row) (start : Int) (end? : Option Int)
    (page_size : Nat) (table : List ChunkRec) (dry_run : Bool)
    (h : _fetch_milvus_page src start end? page_size 0 = []) :
    migrate_range src start end? page_size table dry_run
      = ⟨0, 0, 0, table, []⟩ := by
  unfold migrate_range
  exact loop_exit h _

/-- C6 witness: a range admitting no source row fetches an empty first page
and returns zero counters with an empty effect trace. -/
theorem empty_first_page_witness :
    migrate_range [rowId1] 5 none 3 [] false = ⟨0, 0, 0, [], []⟩ :=
  empty_first_page [rowId1] 5 none 3 [] false (by decide)

/-! ## Claim C10 — no intra-page deduplication -/

/-- C10: if a fetched page holds two rows with the same id `rid` and `rid` is
not already present in the destination, both rows are staged and inserted —
`inserted` rises by 2 and both records reach the table.  Deduplication
happens only against the destination's existing ids, never within a page. -/
theorem no_intra_page_dedup (r1 r2 : Row) (rid : Int)
    (table0 : List ChunkRec) (h1 : r1.id = some rid) (h2 : r2.id = some rid)
    (hnot : rid ∉ tableIds table0) :
    migrate_range [r1, r2] rid none 2 table0 false
      = ⟨2, 0, 2, table0 ++ [mkChunk r1 rid, mkChunk r2 rid],
          [Effect.query [rid, rid],
            Effect.insert [mkChunk r1 rid, mkChunk r2 rid]]⟩ := by
  have hpage0 : _fetch_milvus_page [r1, r2] rid none 2 0 = [r1, r2] := by
    simp [_fetch_milvus_page, rowAdmitted, h1, h2, _milvus_filter]
  have hpage2 : _fetch_milvus_page [r1, r2] rid none 2 2 = [] := by
    rw [fetch_eq, List.drop_eq_nil_of_le
      (by simpa using List.length_filter_le (rowAdmitted rid none) [r1, r2])]
    simp
  have hids : ([r1, r2] : List Row).filterMap (fun r => r.id) = [rid, rid] := by
    simp [List.filterMap_cons, h1, h2]
  have hnotS : rid ∉ (_existing_ids_in_tidb table0 [rid, rid]).1 := by
    rw [probe_fst]
    simp [hnot]
  have hprsnd : (_existing_ids_in_tidb table0 [rid, rid]).2
      = [Effect.query [rid, rid]] := by
    unfold _existing_ids_in_tidb
    rw [if_neg (by simp)]
  have hstage : stagePage (_existing_ids_in_tidb table0 [rid, rid]).1 [r1, r2]
      = (0, [mkChunk r1 rid, mkChunk r2 rid]) := by
    simp [stagePage, h1, h2, hnotS]
  have hstep : pageStep [r1, r2] rid none 2 false 0 ⟨0, 0, 0, table0, []⟩
      = ⟨2, 0, 2, table0 ++ [mkChunk r1 rid, mkChunk r2 rid],
          [Effect.query [rid, rid],
            Effect.insert [mkChunk r1 rid, mkChunk r2 rid]]⟩ := by
    simp only [pageStep, hpage0, hids, hstage, hprsnd]
    simp
  unfold migrate_range
  rw [loop_step (by simp [hpage0]) _, hstep, hpage0]
  have hoff : (0 + ([r1, r2] : List Row).length) = 2 := by simp
  rw [hoff, loop_exit hpage2]

/-- C10 witness: two distinct rows sharing id 1 against an empty destination
are both inserted. -/
theorem no_intra_page_dedup_witness :
    migrate_range [rowId1, rowId1b] 1 none 2 [] false
      = ⟨2, 0, 2, [] ++ [mkChunk rowId1 1, mkChunk rowId1b 1],
          [Effect.query [1, 1],
            Effect.insert [mkChunk rowId1 1, mkChunk rowId1b 1]]⟩ :=
  no_intra_page_dedup rowId1 rowId1b 1 [] rfl rfl (by decide)

end M2T
